import Mathlib

/-!
Verification of the ledger engine of a small in-memory banking system.

The embedding follows the single C++ source file: the `BankSystem` class owns
fixed-capacity arrays of accounts and transaction processes together with two
monotone id counters.  The first `accountCount` / `processCount` slots of the
arrays are modelled as lists; the counts are the list lengths.  Balances and
amounts (C++ `double`) are modelled as rationals.  The mutexes and the
spawn-then-join thread in `executeProcess` provide mutual exclusion only, so
each operation is modelled as one atomic state transformation; the printed
error/success messages are modelled as explicit result values.
-/

/-- Maximum number of accounts (`MAX_ACCOUNTS` in the source). -/
def MAX_ACCOUNTS : ℕ := 1000

/-- Maximum number of transaction processes (`MAX_PROCESSES` in the source). -/
def MAX_PROCESSES : ℕ := 100

/-- Account record (`struct Account`); the per-account mutex is
synchronization, not data, and is omitted. -/
structure Account where
  id : Int
  customerId : String
  balance : ℚ
  active : Bool
deriving DecidableEq

/-- Transaction process record (`struct Process`). -/
structure Process where
  tid : Int
  aid : Int
  type : String
  amount : ℚ
  status : String
deriving DecidableEq

/-- State of the `BankSystem` class: valid array slots as lists, plus the two
id counters.  `accountCount` is `accounts.length`, `processCount` is
`processes.length`. -/
structure BankSystem where
  accounts : List Account
  processes : List Process
  nextAccountId : Int
  nextTransactionId : Int
deriving DecidableEq

/-- Freshly constructed `BankSystem`: empty arrays, both counters at 1. -/
def initBank : BankSystem := ⟨[], [], 1, 1⟩

/-- Outcome messages printed by `createAccount`. -/
inductive CreateAcctMsg where
  | maxAccountLimit
  | negativeInitialBalance
  | created
deriving DecidableEq

/-- `BankSystem::createAccount`: capacity check, then the negative-balance
check, then allocation of the next sequential id.  Returns the new state, the
returned int (`-1` on failure) and the printed message. -/
def createAccountStep (b : BankSystem) (customerId : String) (initialBalance : ℚ) :
    BankSystem × Int × CreateAcctMsg :=
  if MAX_ACCOUNTS ≤ b.accounts.length then
    (b, -1, CreateAcctMsg.maxAccountLimit)
  else if initialBalance < 0 then
    (b, -1, CreateAcctMsg.negativeInitialBalance)
  else
    ({ b with
        accounts := b.accounts ++ [⟨b.nextAccountId, customerId, initialBalance, true⟩],
        nextAccountId := b.nextAccountId + 1 },
     b.nextAccountId, CreateAcctMsg.created)

/-- `BankSystem::createAccount` as observed by the caller: state and int result. -/
def createAccount (b : BankSystem) (customerId : String) (initialBalance : ℚ) :
    BankSystem × Int :=
  ((createAccountStep b customerId initialBalance).1,
   (createAccountStep b customerId initialBalance).2.1)

/-- `BankSystem::createProcess`: capacity check, then unconditional storage of
a Pending process with the next sequential transaction id.  No validation of
`accountId`, `type` or `amount` takes place. -/
def createProcess (b : BankSystem) (accountId : Int) (type : String) (amount : ℚ) :
    BankSystem × Int :=
  if MAX_PROCESSES ≤ b.processes.length then
    (b, -1)
  else
    ({ b with
        processes := b.processes ++
          [⟨b.nextTransactionId, accountId, type, amount, "Pending"⟩],
        nextTransactionId := b.nextTransactionId + 1 },
     b.nextTransactionId)

/-- `BankSystem::findAccount`: first active account with the given id, if any. -/
def findAccount (b : BankSystem) (accountId : Int) : Option Account :=
  b.accounts.find? (fun a => a.active && a.id == accountId)

/-- In-place mutation `proc.status = st` of the first process with the given
tid (the source finds the process by a linear scan and stops at the first
match). -/
def setStatus : List Process → Int → String → List Process
  | [], _, _ => []
  | p :: rest, t, st =>
    if p.tid == t then { p with status := st } :: rest
    else p :: setStatus rest t st

/-- In-place mutation `acc->balance = nb` through the pointer returned by
`findAccount`: the first active account with the given id gets the new
balance. -/
def updateBalance : List Account → Int → ℚ → List Account
  | [], _, _ => []
  | a :: rest, aid, nb =>
    if a.active && a.id == aid then { a with balance := nb } :: rest
    else a :: updateBalance rest aid nb

/-- Outcome messages printed by `executeProcess`. -/
inductive ExecMsg where
  | accountNotFound
  | invalidDepositAmount
  | depositSuccess
  | insufficientFundsOrInvalidAmount
  | withdrawSuccess
  | unknownTransactionType
  | transactionNotFound
deriving DecidableEq

/-- `BankSystem::executeProcess` body (the spawned thread is joined
immediately and the whole body holds the bank mutex, so it is one atomic
step): find the process by tid, resolve the account, then branch on the
transaction type exactly as the source does.  There is no guard on the
process status. -/
def executeStep (b : BankSystem) (tid : Int) : BankSystem × ExecMsg :=
  match b.processes.find? (fun p => p.tid == tid) with
  | none => (b, ExecMsg.transactionNotFound)
  | some proc =>
    match findAccount b proc.aid with
    | none =>
      ({ b with processes := setStatus b.processes tid "Failed" },
       ExecMsg.accountNotFound)
    | some acc =>
      if proc.type = "Deposit" then
        if proc.amount ≤ 0 then
          ({ b with processes := setStatus b.processes tid "Failed" },
           ExecMsg.invalidDepositAmount)
        else
          ({ b with
              accounts := updateBalance b.accounts proc.aid (acc.balance + proc.amount),
              processes := setStatus b.processes tid "Completed" },
           ExecMsg.depositSuccess)
      else if proc.type = "Withdraw" then
        if proc.amount ≤ 0 ∨ acc.balance < proc.amount then
          ({ b with processes := setStatus b.processes tid "Failed" },
           ExecMsg.insufficientFundsOrInvalidAmount)
        else
          ({ b with
              accounts := updateBalance b.accounts proc.aid (acc.balance - proc.amount),
              processes := setStatus b.processes tid "Completed" },
           ExecMsg.withdrawSuccess)
      else
        ({ b with processes := setStatus b.processes tid "Failed" },
         ExecMsg.unknownTransactionType)

/-- `BankSystem::executeProcess` as a state transformation. -/
def executeProcess (b : BankSystem) (tid : Int) : BankSystem :=
  (executeStep b tid).1

/-- `BankSystem::checkBalance`: `-1` when the account is absent or inactive. -/
def checkBalance (b : BankSystem) (accountId : Int) : ℚ :=
  match findAccount b accountId with
  | none => -1
  | some acc => acc.balance

/-- Status of the transaction with the given tid, as stored in the process
table. -/
def txStatus (b : BankSystem) (tid : Int) : Option String :=
  (b.processes.find? (fun p => p.tid == tid)).map Process.status

/-- The public operations of the ledger engine. -/
inductive BankOp where
  | create (customerId : String) (initialBalance : ℚ)
  | createTx (accountId : Int) (type : String) (amount : ℚ)
  | exec (tid : Int)
  | check (accountId : Int)

/-- Effect of one public operation on the state (`checkBalance` reads only). -/
def applyOp (b : BankSystem) : BankOp → BankSystem
  | BankOp.create c i => (createAccount b c i).1
  | BankOp.createTx aid ty amt => (createProcess b aid ty amt).1
  | BankOp.exec tid => executeProcess b tid
  | BankOp.check _ => b

/-- Run a sequence of public operations from a state. -/
def runOps (b : BankSystem) (ops : List BankOp) : BankSystem :=
  ops.foldl applyOp b

/-- Ids handed back by the successful `createAccount` calls of a run, in call
order (the caller observes failure as the return value `-1`). -/
def accountIdResults : BankSystem → List BankOp → List Int
  | _, [] => []
  | b, BankOp.create c i :: ops =>
    if (createAccount b c i).2 = -1 then accountIdResults (createAccount b c i).1 ops
    else (createAccount b c i).2 :: accountIdResults (createAccount b c i).1 ops
  | b, op :: ops => accountIdResults (applyOp b op) ops

/-- Ids handed back by the successful `createProcess` calls of a run, in call
order. -/
def txIdResults : BankSystem → List BankOp → List Int
  | _, [] => []
  | b, BankOp.createTx aid ty amt :: ops =>
    if (createProcess b aid ty amt).2 = -1 then
      txIdResults (createProcess b aid ty amt).1 ops
    else (createProcess b aid ty amt).2 :: txIdResults (createProcess b aid ty amt).1 ops
  | b, op :: ops => txIdResults (applyOp b op) ops

/-- All stored balances are non-negative. -/
def balancesNonneg (b : BankSystem) : Prop := ∀ a ∈ b.accounts, 0 ≤ a.balance

/-! ### Concrete scenario states used to instantiate the general theorems -/

/-- One account (id 1, owner alice, balance 100). -/
def bankA : BankSystem := (createAccount initBank "alice" 100).1

/-- `bankA` plus a pending Withdraw of 30 against account 1 (tid 1). -/
def bankAW : BankSystem := (createProcess bankA 1 "Withdraw" 30).1

/-- `bankA` plus a pending Deposit of 50 against account 1 (tid 1). -/
def bankAD : BankSystem := (createProcess bankA 1 "Deposit" 50).1

/-- `bankA` plus a pending Withdraw of the full balance 100 (tid 1). -/
def bankFullW : BankSystem := (createProcess bankA 1 "Withdraw" 100).1

/-- `bankA` plus a pending Deposit against the nonexistent account 99 (tid 1). -/
def bankGhost : BankSystem := (createProcess bankA 99 "Deposit" 5).1

/-- One account (id 1, owner alice, balance 0). -/
def bankZ : BankSystem := (createAccount initBank "alice" 0).1

/-- A bank whose account array is already at `MAX_ACCOUNTS` capacity. -/
def fullBank : BankSystem :=
  ⟨List.replicate MAX_ACCOUNTS ⟨1, "x", 0, true⟩, [], 1001, 1⟩

/-- `bankZ` plus three pending Deposits of 5 each against account 1
(tids 1, 2, 3). -/
def bankD3 : BankSystem :=
  (createProcess ((createProcess ((createProcess bankZ 1 "Deposit" 5).1)
    1 "Deposit" 5).1) 1 "Deposit" 5).1

/-! ### Branch equations for `executeStep` -/

theorem executeStep_notFound (b : BankSystem) (tid : Int)
    (hp : b.processes.find? (fun p => p.tid == tid) = none) :
    executeStep b tid = (b, ExecMsg.transactionNotFound) := by
  simp only [executeStep, hp]

theorem executeStep_noAccount (b : BankSystem) (tid : Int) (proc : Process)
    (hp : b.processes.find? (fun p => p.tid == tid) = some proc)
    (ha : findAccount b proc.aid = none) :
    executeStep b tid =
      ({ b with processes := setStatus b.processes tid "Failed" },
       ExecMsg.accountNotFound) := by
  simp only [executeStep, hp, ha]

theorem executeStep_deposit_bad (b : BankSystem) (tid : Int) (proc : Process) (acc : Account)
    (hp : b.processes.find? (fun p => p.tid == tid) = some proc)
    (ha : findAccount b proc.aid = some acc)
    (hd : proc.type = "Deposit") (hamt : proc.amount ≤ 0) :
    executeStep b tid =
      ({ b with processes := setStatus b.processes tid "Failed" },
       ExecMsg.invalidDepositAmount) := by
  simp only [executeStep, hp, ha]
  rw [if_pos hd, if_pos hamt]

theorem executeStep_deposit_ok (b : BankSystem) (tid : Int) (proc : Process) (acc : Account)
    (hp : b.processes.find? (fun p => p.tid == tid) = some proc)
    (ha : findAccount b proc.aid = some acc)
    (hd : proc.type = "Deposit") (hamt : 0 < proc.amount) :
    executeStep b tid =
      ({ b with
          accounts := updateBalance b.accounts proc.aid (acc.balance + proc.amount),
          processes := setStatus b.processes tid "Completed" },
       ExecMsg.depositSuccess) := by
  simp only [executeStep, hp, ha]
  rw [if_pos hd, if_neg (not_le.mpr hamt)]

theorem executeStep_withdraw_bad (b : BankSystem) (tid : Int) (proc : Process) (acc : Account)
    (hp : b.processes.find? (fun p => p.tid == tid) = some proc)
    (ha : findAccount b proc.aid = some acc)
    (hw : proc.type = "Withdraw")
    (hcond : proc.amount ≤ 0 ∨ acc.balance < proc.amount) :
    executeStep b tid =
      ({ b with processes := setStatus b.processes tid "Failed" },
       ExecMsg.insufficientFundsOrInvalidAmount) := by
  have hnd : ¬ proc.type = "Deposit" := by rw [hw]; decide
  simp only [executeStep, hp, ha]
  rw [if_neg hnd, if_pos hw, if_pos hcond]

theorem executeStep_withdraw_ok (b : BankSystem) (tid : Int) (proc : Process) (acc : Account)
    (hp : b.processes.find? (fun p => p.tid == tid) = some proc)
    (ha : findAccount b proc.aid = some acc)
    (hw : proc.type = "Withdraw")
    (hamt : 0 < proc.amount) (hble : proc.amount ≤ acc.balance) :
    executeStep b tid =
      ({ b with
          accounts := updateBalance b.accounts proc.aid (acc.balance - proc.amount),
          processes := setStatus b.processes tid "Completed" },
       ExecMsg.withdrawSuccess) := by
  have hnd : ¬ proc.type = "Deposit" := by rw [hw]; decide
  simp only [executeStep, hp, ha]
  rw [if_neg hnd, if_pos hw,
    if_neg (not_or.mpr ⟨not_le.mpr hamt, not_lt.mpr hble⟩)]

theorem executeStep_unknown (b : BankSystem) (tid : Int) (proc : Process) (acc : Account)
    (hp : b.processes.find? (fun p => p.tid == tid) = some proc)
    (ha : findAccount b proc.aid = some acc)
    (hnd : proc.type ≠ "Deposit") (hnw : proc.type ≠ "Withdraw") :
    executeStep b tid =
      ({ b with processes := setStatus b.processes tid "Failed" },
       ExecMsg.unknownTransactionType) := by
  simp only [executeStep, hp, ha]
  rw [if_neg hnd, if_neg hnw]

/-! ### Lemmas about `setStatus` and `updateBalance` -/

theorem setStatus_find?_self (l : List Process) (t : Int) (st : String) (p : Process)
    (h : l.find? (fun q => q.tid == t) = some p) :
    (setStatus l t st).find? (fun q => q.tid == t) = some { p with status := st } := by
  induction l with
  | nil => simp [List.find?] at h
  | cons q rest ih =>
    by_cases hq : q.tid = t
    · rw [List.find?_cons_of_pos _ (by simp [hq])] at h
      cases h
      simp [setStatus, hq, List.find?_cons_of_pos]
    · rw [List.find?_cons_of_neg _ (by simp [hq])] at h
      rw [setStatus, if_neg (by simp [hq]), List.find?_cons_of_neg _ (by simp [hq])]
      exact ih h

theorem setStatus_find?_ne (l : List Process) (t t2 : Int) (st : String) (h : t2 ≠ t) :
    (setStatus l t st).find? (fun q => q.tid == t2) = l.find? (fun q => q.tid == t2) := by
  induction l with
  | nil => simp [setStatus]
  | cons q rest ih =>
    by_cases hq : q.tid = t
    · have hq2 : ¬ q.tid = t2 := by rw [hq]; exact fun hc => h hc.symm
      rw [setStatus, if_pos (by simp [hq])]
      rw [List.find?_cons_of_neg _ (by simp [hq2]),
        List.find?_cons_of_neg _ (by simp [hq2])]
    · rw [setStatus, if_neg (by simp [hq])]
      by_cases hq2 : q.tid = t2
      · rw [List.find?_cons_of_pos _ (by simp [hq2]),
          List.find?_cons_of_pos _ (by simp [hq2])]
      · rw [List.find?_cons_of_neg _ (by simp [hq2]),
          List.find?_cons_of_neg _ (by simp [hq2])]
        exact ih

theorem updateBalance_find? (l : List Account) (aid : Int) (nb : ℚ) (acc : Account)
    (h : l.find? (fun a => a.active && a.id == aid) = some acc) :
    (updateBalance l aid nb).find? (fun a => a.active && a.id == aid) =
      some { acc with balance := nb } := by
  induction l with
  | nil => simp [List.find?] at h
  | cons a rest ih =>
    by_cases hq : (a.active && a.id == aid) = true
    · have h1 : (a :: rest).find? (fun x => x.active && x.id == aid) = some a :=
        List.find?_cons_of_pos _ hq
      rw [h1] at h
      cases h
      have h2 : updateBalance (acc :: rest) aid nb = { acc with balance := nb } :: rest := by
        rw [updateBalance, if_pos hq]
      rw [h2]
      exact List.find?_cons_of_pos _ (by simpa using hq)
    · have h1 : (a :: rest).find? (fun x => x.active && x.id == aid) =
          rest.find? (fun x => x.active && x.id == aid) :=
        List.find?_cons_of_neg _ hq
      rw [h1] at h
      have h2 : updateBalance (a :: rest) aid nb = a :: updateBalance rest aid nb := by
        rw [updateBalance, if_neg hq]
      have h3 : (a :: updateBalance rest aid nb).find? (fun x => x.active && x.id == aid) =
          (updateBalance rest aid nb).find? (fun x => x.active && x.id == aid) :=
        List.find?_cons_of_neg _ hq
      rw [h2, h3]
      exact ih h

theorem updateBalance_nonneg (l : List Account) (aid : Int) (nb : ℚ)
    (h : ∀ a ∈ l, 0 ≤ a.balance) (hnb : 0 ≤ nb) :
    ∀ a ∈ updateBalance l aid nb, 0 ≤ a.balance := by
  induction l with
  | nil => simp [updateBalance]
  | cons a rest ih =>
    intro x hx
    by_cases hq : (a.active && a.id == aid) = true
    · rw [updateBalance, if_pos hq] at hx
      rcases List.mem_cons.mp hx with h1 | h1
      · subst h1; simpa using hnb
      · exact h x (List.mem_cons_of_mem _ h1)
    · rw [updateBalance, if_neg hq] at hx
      rcases List.mem_cons.mp hx with h1 | h1
      · subst h1; exact h x (List.mem_cons_self _ _)
      · exact ih (fun y hy => h y (List.mem_cons_of_mem _ hy)) x h1

/-- Exhaustive case analysis of `executeStep`, following the branch structure
of the source. -/
theorem executeStep_split (b : BankSystem) (tid : Int) :
    (b.processes.find? (fun p => p.tid == tid) = none ∧
      executeStep b tid = (b, ExecMsg.transactionNotFound)) ∨
    (∃ proc, b.processes.find? (fun p => p.tid == tid) = some proc ∧
      ((findAccount b proc.aid = none ∧
         executeStep b tid = ({ b with processes := setStatus b.processes tid "Failed" },
           ExecMsg.accountNotFound)) ∨
       (∃ acc, findAccount b proc.aid = some acc ∧
         ((proc.type = "Deposit" ∧ proc.amount ≤ 0 ∧
            executeStep b tid = ({ b with processes := setStatus b.processes tid "Failed" },
              ExecMsg.invalidDepositAmount)) ∨
          (proc.type = "Deposit" ∧ 0 < proc.amount ∧
            executeStep b tid = ({ b with
              accounts := updateBalance b.accounts proc.aid (acc.balance + proc.amount),
              processes := setStatus b.processes tid "Completed" },
              ExecMsg.depositSuccess)) ∨
          (proc.type = "Withdraw" ∧ (proc.amount ≤ 0 ∨ acc.balance < proc.amount) ∧
            executeStep b tid = ({ b with processes := setStatus b.processes tid "Failed" },
              ExecMsg.insufficientFundsOrInvalidAmount)) ∨
          (proc.type = "Withdraw" ∧ 0 < proc.amount ∧ proc.amount ≤ acc.balance ∧
            executeStep b tid = ({ b with
              accounts := updateBalance b.accounts proc.aid (acc.balance - proc.amount),
              processes := setStatus b.processes tid "Completed" },
              ExecMsg.withdrawSuccess)) ∨
          (proc.type ≠ "Deposit" ∧ proc.type ≠ "Withdraw" ∧
            executeStep b tid = ({ b with processes := setStatus b.processes tid "Failed" },
              ExecMsg.unknownTransactionType)))))) := by
  cases hp : b.processes.find? (fun p => p.tid == tid) with
  | none => exact Or.inl ⟨rfl, executeStep_notFound b tid hp⟩
  | some proc =>
    refine Or.inr ⟨proc, rfl, ?_⟩
    cases ha : findAccount b proc.aid with
    | none => exact Or.inl ⟨rfl, executeStep_noAccount b tid proc hp ha⟩
    | some acc =>
      refine Or.inr ⟨acc, rfl, ?_⟩
      by_cases hd : proc.type = "Deposit"
      · by_cases hamt : proc.amount ≤ 0
        · exact Or.inl ⟨hd, hamt, executeStep_deposit_bad b tid proc acc hp ha hd hamt⟩
        · have hpos := lt_of_not_le hamt
          exact Or.inr (Or.inl ⟨hd, hpos, executeStep_deposit_ok b tid proc acc hp ha hd hpos⟩)
      · by_cases hw : proc.type = "Withdraw"
        · by_cases hcond : proc.amount ≤ 0 ∨ acc.balance < proc.amount
          · exact Or.inr (Or.inr (Or.inl
              ⟨hw, hcond, executeStep_withdraw_bad b tid proc acc hp ha hw hcond⟩))
          · push_neg at hcond
            exact Or.inr (Or.inr (Or.inr (Or.inl ⟨hw, hcond.1, hcond.2,
              executeStep_withdraw_ok b tid proc acc hp ha hw hcond.1 hcond.2⟩)))
        · exact Or.inr (Or.inr (Or.inr (Or.inr
            ⟨hd, hw, executeStep_unknown b tid proc acc hp ha hd hw⟩)))

/-- Every branch of `executeStep` leaves the two id counters, the account
count and the process count unchanged, and touches the account and process
tables only through `updateBalance` / `setStatus`. -/
theorem executeProcess_counters (b : BankSystem) (tid : Int) :
    (executeProcess b tid).nextAccountId = b.nextAccountId ∧
    (executeProcess b tid).nextTransactionId = b.nextTransactionId := by
  unfold executeProcess
  rcases executeStep_split b tid with ⟨_, h⟩ | ⟨proc, _, h⟩
  · rw [h]; exact ⟨rfl, rfl⟩
  · rcases h with ⟨_, h⟩ | ⟨acc, _, h⟩
    · rw [h]; exact ⟨rfl, rfl⟩
    · rcases h with ⟨_, _, h⟩ | ⟨_, _, h⟩ | ⟨_, _, h⟩ | ⟨_, _, _, h⟩ | ⟨_, _, h⟩ <;>
        rw [h] <;> exact ⟨rfl, rfl⟩

theorem setStatus_length (l : List Process) (t : Int) (st : String) :
    (setStatus l t st).length = l.length := by
  induction l with
  | nil => rfl
  | cons p rest ih =>
    by_cases hq : (p.tid == t) = true
    · rw [setStatus, if_pos hq]; rfl
    · rw [setStatus, if_neg hq]; simpa using ih

theorem updateBalance_length (l : List Account) (aid : Int) (nb : ℚ) :
    (updateBalance l aid nb).length = l.length := by
  induction l with
  | nil => rfl
  | cons a rest ih =>
    by_cases hq : (a.active && a.id == aid) = true
    · rw [updateBalance, if_pos hq]; rfl
    · rw [updateBalance, if_neg hq]; simpa using ih

theorem executeProcess_lengths (b : BankSystem) (tid : Int) :
    (executeProcess b tid).accounts.length = b.accounts.length ∧
    (executeProcess b tid).processes.length = b.processes.length := by
  unfold executeProcess
  rcases executeStep_split b tid with ⟨_, h⟩ | ⟨proc, _, h⟩
  · rw [h]; exact ⟨rfl, rfl⟩
  · rcases h with ⟨_, h⟩ | ⟨acc, _, h⟩
    · rw [h]; exact ⟨rfl, setStatus_length _ _ _⟩
    · rcases h with ⟨_, _, h⟩ | ⟨_, _, h⟩ | ⟨_, _, h⟩ | ⟨_, _, _, h⟩ | ⟨_, _, h⟩ <;> rw [h] <;>
        exact ⟨by simp [updateBalance_length], setStatus_length _ _ _⟩

/-- Pointwise frame property of `setStatus`: a slot is unchanged unless it is
the first slot holding the given tid, and then only its status changes. -/
theorem setStatus_getElem? (l : List Process) (t : Int) (st : String) (j : ℕ) :
    (setStatus l t st)[j]? = l[j]? ∨
      ∃ p, l[j]? = some p ∧ p.tid = t ∧
        (setStatus l t st)[j]? = some { p with status := st } ∧
        ∀ i, i < j → ∀ q, l[i]? = some q → q.tid ≠ t := by
  induction l generalizing j with
  | nil => left; rfl
  | cons p rest ih =>
    by_cases hq : p.tid = t
    · have h2 : setStatus (p :: rest) t st = { p with status := st } :: rest := by
        rw [setStatus, if_pos (by simp [hq])]
      cases j with
      | zero =>
        right
        exact ⟨p, by simp, hq, by rw [h2]; simp,
          fun i hi => absurd hi (Nat.not_lt_zero i)⟩
      | succ j => left; rw [h2]; simp
    · have h2 : setStatus (p :: rest) t st = p :: setStatus rest t st := by
        rw [setStatus, if_neg (by simp [hq])]
      cases j with
      | zero => left; rw [h2]; simp
      | succ j =>
        rw [h2]
        rcases ih j with h3 | ⟨q, hq1, hq2, hq3, hq4⟩
        · left; simpa using h3
        · right
          refine ⟨q, by simpa using hq1, hq2, by simpa using hq3, ?_⟩
          intro i hi r hr
          cases i with
          | zero =>
            simp only [List.getElem?_cons_zero, Option.some.injEq] at hr
            subst hr; exact hq
          | succ i =>
            exact hq4 i (by omega) r (by simpa using hr)

/-- Pointwise frame property of `updateBalance`: a slot is unchanged unless it
is the first active slot with the given account id, and then only its balance
changes. -/
theorem updateBalance_getElem? (l : List Account) (aid : Int) (nb : ℚ) (j : ℕ) :
    (updateBalance l aid nb)[j]? = l[j]? ∨
      ∃ a, l[j]? = some a ∧ a.active = true ∧ a.id = aid ∧
        (updateBalance l aid nb)[j]? = some { a with balance := nb } ∧
        ∀ i, i < j → ∀ x, l[i]? = some x → ¬(x.active = true ∧ x.id = aid) := by
  induction l generalizing j with
  | nil => left; rfl
  | cons a rest ih =>
    by_cases hq : (a.active && a.id == aid) = true
    · have hq2 : a.active = true ∧ a.id = aid := by simpa using hq
      have h2 : updateBalance (a :: rest) aid nb = { a with balance := nb } :: rest := by
        rw [updateBalance, if_pos hq]
      cases j with
      | zero =>
        right
        exact ⟨a, by simp, hq2.1, hq2.2, by rw [h2]; simp,
          fun i hi => absurd hi (Nat.not_lt_zero i)⟩
      | succ j => left; rw [h2]; simp
    · have hq2 : ¬(a.active = true ∧ a.id = aid) := by simpa using hq
      have h2 : updateBalance (a :: rest) aid nb = a :: updateBalance rest aid nb := by
        rw [updateBalance, if_neg hq]
      cases j with
      | zero => left; rw [h2]; simp
      | succ j =>
        rw [h2]
        rcases ih j with h3 | ⟨x, hx1, hx2, hx3, hx4, hx5⟩
        · left; simpa using h3
        · right
          refine ⟨x, by simpa using hx1, hx2, hx3, by simpa using hx4, ?_⟩
          intro i hi r hr
          cases i with
          | zero =>
            simp only [List.getElem?_cons_zero, Option.some.injEq] at hr
            subst hr; exact hq2
          | succ i =>
            exact hx5 i (by omega) r (by simpa using hr)

/-! ### Branch equations for the creation operations -/

theorem createAccount_capacity (b : BankSystem) (c : String) (i : ℚ)
    (h1 : MAX_ACCOUNTS ≤ b.accounts.length) :
    createAccountStep b c i = (b, -1, CreateAcctMsg.maxAccountLimit) := by
  unfold createAccountStep; rw [if_pos h1]

theorem createAccount_negative (b : BankSystem) (c : String) (i : ℚ)
    (h1 : b.accounts.length < MAX_ACCOUNTS) (h2 : i < 0) :
    createAccountStep b c i = (b, -1, CreateAcctMsg.negativeInitialBalance) := by
  unfold createAccountStep; rw [if_neg (not_le.mpr h1), if_pos h2]

theorem createAccount_success (b : BankSystem) (c : String) (i : ℚ)
    (h1 : b.accounts.length < MAX_ACCOUNTS) (h2 : 0 ≤ i) :
    createAccountStep b c i =
      ({ b with accounts := b.accounts ++ [⟨b.nextAccountId, c, i, true⟩],
                nextAccountId := b.nextAccountId + 1 },
       b.nextAccountId, CreateAcctMsg.created) := by
  unfold createAccountStep
  rw [if_neg (not_le.mpr h1), if_neg (not_lt.mpr h2)]

theorem createProcess_capacity (b : BankSystem) (aid : Int) (ty : String) (amt : ℚ)
    (h : MAX_PROCESSES ≤ b.processes.length) :
    createProcess b aid ty amt = (b, -1) := by
  unfold createProcess; rw [if_pos h]

theorem createProcess_success (b : BankSystem) (aid : Int) (ty : String) (amt : ℚ)
    (h : b.processes.length < MAX_PROCESSES) :
    createProcess b aid ty amt =
      ({ b with
          processes := b.processes ++ [⟨b.nextTransactionId, aid, ty, amt, "Pending"⟩],
          nextTransactionId := b.nextTransactionId + 1 },
       b.nextTransactionId) := by
  unfold createProcess; rw [if_neg (not_le.mpr h)]

/-! ### Preservation of the balance invariant -/

theorem createAccount_nonneg (b : BankSystem) (c : String) (i : ℚ)
    (h : balancesNonneg b) : balancesNonneg (createAccount b c i).1 := by
  by_cases h1 : MAX_ACCOUNTS ≤ b.accounts.length
  · unfold createAccount; rw [createAccount_capacity b c i h1]; exact h
  · by_cases h2 : i < 0
    · unfold createAccount; rw [createAccount_negative b c i (lt_of_not_le h1) h2]; exact h
    · unfold createAccount
      rw [createAccount_success b c i (lt_of_not_le h1) (le_of_not_lt h2)]
      intro a ha
      rcases List.mem_append.mp ha with h3 | h3
      · exact h a h3
      · have h4 : a = ⟨b.nextAccountId, c, i, true⟩ := by simpa using h3
        subst h4
        simpa using le_of_not_lt h2

theorem executeProcess_nonneg (b : BankSystem) (tid : Int) (h : balancesNonneg b) :
    balancesNonneg (executeProcess b tid) := by
  unfold executeProcess
  rcases executeStep_split b tid with ⟨_, he⟩ | ⟨proc, hp, hrest⟩
  · rw [he]; exact h
  · rcases hrest with ⟨_, he⟩ | ⟨acc, ha, hrest⟩
    · rw [he]; exact h
    · have hamem : acc ∈ b.accounts := List.mem_of_find?_eq_some ha
      have hab : 0 ≤ acc.balance := h acc hamem
      rcases hrest with ⟨_, _, he⟩ | ⟨_, hpos, he⟩ | ⟨_, _, he⟩ | ⟨_, hpos, hble, he⟩ |
        ⟨_, _, he⟩ <;> rw [he]
      · exact h
      · exact updateBalance_nonneg _ _ _ h (by linarith)
      · exact h
      · exact updateBalance_nonneg _ _ _ h (by linarith)
      · exact h

theorem applyOp_nonneg (b : BankSystem) (op : BankOp) (h : balancesNonneg b) :
    balancesNonneg (applyOp b op) := by
  cases op with
  | create c i => exact createAccount_nonneg b c i h
  | createTx aid ty amt =>
    show balancesNonneg (createProcess b aid ty amt).1
    by_cases h1 : MAX_PROCESSES ≤ b.processes.length
    · rw [createProcess_capacity b aid ty amt h1]; exact h
    · rw [createProcess_success b aid ty amt (lt_of_not_le h1)]; exact h
  | exec tid => exact executeProcess_nonneg b tid h
  | check aid => exact h

theorem runOps_nonneg (ops : List BankOp) : ∀ b : BankSystem, balancesNonneg b →
    balancesNonneg (runOps b ops) := by
  induction ops with
  | nil => intro b h; exact h
  | cons op ops ih => intro b h; exact ih (applyOp b op) (applyOp_nonneg b op h)

/-- C1: starting from a fresh bank, after any sequence of the public
operations (createAccount, createProcess, executeProcess, checkBalance) every
stored account balance is non-negative: account creation rejects a negative
initial balance, a deposit executes only with positive amount, and a withdraw
never drives a balance negative. -/
theorem C1_balance_nonneg (ops : List BankOp) :
    ∀ a ∈ (runOps initBank ops).accounts, 0 ≤ a.balance :=
  runOps_nonneg ops initBank (by intro a ha; simp [initBank] at ha)

theorem C1_balance_nonneg_witness :
    0 ≤ (Account.mk 1 "alice" 70 true).balance :=
  C1_balance_nonneg
    [BankOp.create "alice" 100, BankOp.createTx 1 "Withdraw" 30, BankOp.exec 1]
    ⟨1, "alice", 70, true⟩
    (by
      norm_num [runOps, applyOp, executeProcess, executeStep, createAccount,
        createAccountStep, createProcess, findAccount, setStatus, updateBalance,
        initBank, MAX_ACCOUNTS, MAX_PROCESSES, List.find?]
      decide)

/-! ### Observation helpers -/

theorem checkBalance_of_find (b : BankSystem) (aid : Int) (acc : Account)
    (ha : findAccount b aid = some acc) : checkBalance b aid = acc.balance := by
  unfold checkBalance; rw [ha]

theorem txStatus_of_find (b : BankSystem) (tid : Int) (p : Process)
    (hp : b.processes.find? (fun q => q.tid == tid) = some p) :
    txStatus b tid = some p.status := by
  unfold txStatus; rw [hp]; rfl

/-- C2: executing a pending Withdraw transaction of amount `a` against an
existing active account with balance `b0` leaves balance `b0 - a` and status
Completed when `0 < a ≤ b0`, and leaves the balance unchanged with status
Failed when `a ≤ 0` or `b0 < a`. -/
theorem C2_withdraw_exec (b : BankSystem) (tid : Int) (proc : Process) (acc : Account)
    (hp : b.processes.find? (fun p => p.tid == tid) = some proc)
    (hty : proc.type = "Withdraw") (hst : proc.status = "Pending")
    (ha : findAccount b proc.aid = some acc) :
    (0 < proc.amount → proc.amount ≤ acc.balance →
      checkBalance (executeProcess b tid) proc.aid = acc.balance - proc.amount ∧
      txStatus (executeProcess b tid) tid = some "Completed") ∧
    (proc.amount ≤ 0 ∨ acc.balance < proc.amount →
      checkBalance (executeProcess b tid) proc.aid = acc.balance ∧
      txStatus (executeProcess b tid) tid = some "Failed") := by
  constructor
  · intro hpos hble
    have he := executeStep_withdraw_ok b tid proc acc hp ha hty hpos hble
    unfold executeProcess
    rw [he]
    constructor
    · have h1 : findAccount { b with
          accounts := updateBalance b.accounts proc.aid (acc.balance - proc.amount),
          processes := setStatus b.processes tid "Completed" } proc.aid =
          some { acc with balance := acc.balance - proc.amount } :=
        updateBalance_find? b.accounts proc.aid (acc.balance - proc.amount) acc ha
      exact checkBalance_of_find _ _ _ h1
    · rw [txStatus_of_find _ _ _
        (setStatus_find?_self b.processes tid "Completed" proc hp)]
  · intro hcond
    have he := executeStep_withdraw_bad b tid proc acc hp ha hty hcond
    unfold executeProcess
    rw [he]
    constructor
    · exact checkBalance_of_find _ _ _ ha
    · rw [txStatus_of_find _ _ _
        (setStatus_find?_self b.processes tid "Failed" proc hp)]

theorem C2_withdraw_exec_witness :
    checkBalance (executeProcess bankAW 1) 1 = 70 ∧
    txStatus (executeProcess bankAW 1) 1 = some "Completed" := by
  have h := (C2_withdraw_exec bankAW 1 ⟨1, 1, "Withdraw", 30, "Pending"⟩
    ⟨1, "alice", 100, true⟩ (by decide) rfl rfl (by decide)).1
    (by norm_num) (by norm_num)
  norm_num at h
  exact h

/-- C3: executing a pending Deposit transaction of amount `a` against an
existing active account with balance `b0` leaves balance `b0 + a` and status
Completed when `0 < a`, and leaves the balance unchanged with status Failed
when `a ≤ 0`. -/
theorem C3_deposit_exec (b : BankSystem) (tid : Int) (proc : Process) (acc : Account)
    (hp : b.processes.find? (fun p => p.tid == tid) = some proc)
    (hty : proc.type = "Deposit") (hst : proc.status = "Pending")
    (ha : findAccount b proc.aid = some acc) :
    (0 < proc.amount →
      checkBalance (executeProcess b tid) proc.aid = acc.balance + proc.amount ∧
      txStatus (executeProcess b tid) tid = some "Completed") ∧
    (proc.amount ≤ 0 →
      checkBalance (executeProcess b tid) proc.aid = acc.balance ∧
      txStatus (executeProcess b tid) tid = some "Failed") := by
  constructor
  · intro hpos
    have he := executeStep_deposit_ok b tid proc acc hp ha hty hpos
    unfold executeProcess
    rw [he]
    constructor
    · have h1 : findAccount { b with
          accounts := updateBalance b.accounts proc.aid (acc.balance + proc.amount),
          processes := setStatus b.processes tid "Completed" } proc.aid =
          some { acc with balance := acc.balance + proc.amount } :=
        updateBalance_find? b.accounts proc.aid (acc.balance + proc.amount) acc ha
      exact checkBalance_of_find _ _ _ h1
    · rw [txStatus_of_find _ _ _
        (setStatus_find?_self b.processes tid "Completed" proc hp)]
  · intro hneg
    have he := executeStep_deposit_bad b tid proc acc hp ha hty hneg
    unfold executeProcess
    rw [he]
    constructor
    · exact checkBalance_of_find _ _ _ ha
    · rw [txStatus_of_find _ _ _
        (setStatus_find?_self b.processes tid "Failed" proc hp)]

theorem C3_deposit_exec_witness :
    checkBalance (executeProcess bankAD 1) 1 = 150 ∧
    txStatus (executeProcess bankAD 1) 1 = some "Completed" := by
  have h := (C3_deposit_exec bankAD 1 ⟨1, 1, "Deposit", 50, "Pending"⟩
    ⟨1, "alice", 100, true⟩ (by decide) rfl rfl (by decide)).1 (by norm_num)
  norm_num at h
  exact h

/-- Effect of executing a valid Deposit once: the process record becomes
Completed and the target account gains the amount.  `executeProcess` never
inspects the stored status, so this applies to already-terminal records as
well. -/
theorem deposit_effect (b : BankSystem) (tid : Int) (proc : Process) (acc : Account)
    (hp : b.processes.find? (fun p => p.tid == tid) = some proc)
    (hty : proc.type = "Deposit") (hpos : 0 < proc.amount)
    (ha : findAccount b proc.aid = some acc) :
    (executeProcess b tid).processes.find? (fun p => p.tid == tid) =
        some { proc with status := "Completed" } ∧
    (executeProcess b tid).processes = setStatus b.processes tid "Completed" ∧
    findAccount (executeProcess b tid) proc.aid =
        some { acc with balance := acc.balance + proc.amount } := by
  have he := executeStep_deposit_ok b tid proc acc hp ha hty hpos
  unfold executeProcess
  rw [he]
  exact ⟨setStatus_find?_self b.processes tid "Completed" proc hp, rfl,
         updateBalance_find? b.accounts proc.aid (acc.balance + proc.amount) acc ha⟩

/-- C4 is false of the code: a status that has reached Completed can change
again.  Concretely, executing a Withdraw of the full balance yields status
Completed, and calling executeProcess again on the same transaction id
re-runs it against the now-empty account and overwrites the status with
Failed. -/
theorem C4_terminal_status_counterexample :
    txStatus (executeProcess bankFullW 1) 1 = some "Completed" ∧
    txStatus (executeProcess (executeProcess bankFullW 1) 1) 1 = some "Failed" := by
  norm_num [bankFullW, bankA, executeProcess, executeStep, createAccount,
    createAccountStep, createProcess, findAccount, setStatus, updateBalance,
    txStatus, initBank, MAX_ACCOUNTS, MAX_PROCESSES, List.find?]

/-- C4 amended: `executeProcess` has no guard on a terminal status, so a
second call with the same transaction id re-executes the transaction and
re-applies its balance effect.  For a Completed Deposit of positive amount
`a` the second call adds `a` to the balance again (and a re-run Withdraw can
even overwrite Completed with Failed, as the counterexample shows). -/
theorem C4_amended_reexecution (b : BankSystem) (tid : Int) (proc : Process) (acc : Account)
    (hp : b.processes.find? (fun p => p.tid == tid) = some proc)
    (hty : proc.type = "Deposit") (hpos : 0 < proc.amount)
    (ha : findAccount b proc.aid = some acc) :
    txStatus (executeProcess b tid) tid = some "Completed" ∧
    checkBalance (executeProcess b tid) proc.aid = acc.balance + proc.amount ∧
    checkBalance (executeProcess (executeProcess b tid) tid) proc.aid =
      acc.balance + proc.amount + proc.amount := by
  obtain ⟨hp1, -, ha1⟩ := deposit_effect b tid proc acc hp hty hpos ha
  refine ⟨?_, ?_, ?_⟩
  · rw [txStatus_of_find _ _ _ hp1]
  · exact checkBalance_of_find _ _ _ ha1
  · obtain ⟨hp2, -, ha2⟩ :=
      deposit_effect (executeProcess b tid) tid { proc with status := "Completed" }
        { acc with balance := acc.balance + proc.amount } hp1 hty hpos ha1
    exact checkBalance_of_find _ _ _ ha2

theorem C4_amended_reexecution_witness :
    checkBalance (executeProcess (executeProcess bankAD 1) 1) 1 = 200 := by
  have h := (C4_amended_reexecution bankAD 1 ⟨1, 1, "Deposit", 50, "Pending"⟩
    ⟨1, "alice", 100, true⟩ (by decide) rfl (by norm_num) (by decide)).2.2
  norm_num at h
  exact h

/-! ### Counter preservation across operations -/

theorem createProcess_nextAccountId (b : BankSystem) (aid : Int) (ty : String) (amt : ℚ) :
    (createProcess b aid ty amt).1.nextAccountId = b.nextAccountId := by
  by_cases h : MAX_PROCESSES ≤ b.processes.length
  · rw [createProcess_capacity b aid ty amt h]
  · rw [createProcess_success b aid ty amt (lt_of_not_le h)]

theorem createAccount_nextTransactionId (b : BankSystem) (c : String) (i : ℚ) :
    (createAccount b c i).1.nextTransactionId = b.nextTransactionId := by
  unfold createAccount
  by_cases h1 : MAX_ACCOUNTS ≤ b.accounts.length
  · rw [createAccount_capacity b c i h1]
  · by_cases h2 : i < 0
    · rw [createAccount_negative b c i (lt_of_not_le h1) h2]
    · rw [createAccount_success b c i (lt_of_not_le h1) (le_of_not_lt h2)]

/-- Ids handed out by `createAccount` along a run are bounded below by the
current counter and strictly increasing. -/
theorem accountIdResults_mono (ops : List BankOp) : ∀ b : BankSystem,
    1 ≤ b.nextAccountId →
    (accountIdResults b ops).Pairwise (· < ·) ∧
      ∀ x ∈ accountIdResults b ops, b.nextAccountId ≤ x := by
  induction ops with
  | nil =>
    intro b _
    exact ⟨List.Pairwise.nil, by intro x hx; simp [accountIdResults] at hx⟩
  | cons op ops ih =>
    intro b hb
    cases op with
    | create c i =>
      have hstep : accountIdResults b (BankOp.create c i :: ops) =
          if (createAccount b c i).2 = -1 then
            accountIdResults (createAccount b c i).1 ops
          else (createAccount b c i).2 :: accountIdResults (createAccount b c i).1 ops := rfl
      by_cases h1 : MAX_ACCOUNTS ≤ b.accounts.length
      · have hc : createAccount b c i = (b, -1) := by
          unfold createAccount; rw [createAccount_capacity b c i h1]
        rw [hstep, hc]
        simpa using ih b hb
      · by_cases h2 : i < 0
        · have hc : createAccount b c i = (b, -1) := by
            unfold createAccount; rw [createAccount_negative b c i (lt_of_not_le h1) h2]
          rw [hstep, hc]
          simpa using ih b hb
        · have hc : createAccount b c i =
              ({ b with accounts := b.accounts ++ [⟨b.nextAccountId, c, i, true⟩],
                        nextAccountId := b.nextAccountId + 1 },
               b.nextAccountId) := by
            unfold createAccount
            rw [createAccount_success b c i (lt_of_not_le h1) (le_of_not_lt h2)]
          have hne : ¬ (b.nextAccountId = -1) := by omega
          rw [hstep, hc]
          simp only [if_neg hne]
          obtain ⟨hpw, hbd⟩ := ih
            { b with accounts := b.accounts ++ [⟨b.nextAccountId, c, i, true⟩],
                     nextAccountId := b.nextAccountId + 1 } (by simp; omega)
          have hbd2 : ∀ x ∈ accountIdResults
              { b with accounts := b.accounts ++ [⟨b.nextAccountId, c, i, true⟩],
                       nextAccountId := b.nextAccountId + 1 } ops,
              b.nextAccountId + 1 ≤ x := by simpa using hbd
          constructor
          · exact List.pairwise_cons.mpr
              ⟨fun x hx => by have := hbd2 x hx; omega, hpw⟩
          · intro x hx
            rcases List.mem_cons.mp hx with h3 | h3
            · omega
            · have := hbd2 x h3; omega
    | createTx aid ty amt =>
      have hstep : accountIdResults b (BankOp.createTx aid ty amt :: ops) =
          accountIdResults (createProcess b aid ty amt).1 ops := rfl
      have hpres := createProcess_nextAccountId b aid ty amt
      obtain ⟨hpw, hbd⟩ := ih (createProcess b aid ty amt).1 (by omega)
      exact ⟨by rw [hstep]; exact hpw, by rw [hstep]; intro x hx; have := hbd x hx; omega⟩
    | exec tid =>
      have hstep : accountIdResults b (BankOp.exec tid :: ops) =
          accountIdResults (executeProcess b tid) ops := rfl
      have hpres := (executeProcess_counters b tid).1
      obtain ⟨hpw, hbd⟩ := ih (executeProcess b tid) (by omega)
      exact ⟨by rw [hstep]; exact hpw, by rw [hstep]; intro x hx; have := hbd x hx; omega⟩
    | check aid =>
      have hstep : accountIdResults b (BankOp.check aid :: ops) =
          accountIdResults b ops := rfl
      obtain ⟨hpw, hbd⟩ := ih b hb
      exact ⟨by rw [hstep]; exact hpw, by rw [hstep]; exact hbd⟩

/-- Ids handed out by `createProcess` along a run are bounded below by the
current counter and strictly increasing. -/
theorem txIdResults_mono (ops : List BankOp) : ∀ b : BankSystem,
    1 ≤ b.nextTransactionId →
    (txIdResults b ops).Pairwise (· < ·) ∧
      ∀ x ∈ txIdResults b ops, b.nextTransactionId ≤ x := by
  induction ops with
  | nil =>
    intro b _
    exact ⟨List.Pairwise.nil, by intro x hx; simp [txIdResults] at hx⟩
  | cons op ops ih =>
    intro b hb
    cases op with
    | createTx aid ty amt =>
      have hstep : txIdResults b (BankOp.createTx aid ty amt :: ops) =
          if (createProcess b aid ty amt).2 = -1 then
            txIdResults (createProcess b aid ty amt).1 ops
          else (createProcess b aid ty amt).2 ::
            txIdResults (createProcess b aid ty amt).1 ops := rfl
      by_cases h1 : MAX_PROCESSES ≤ b.processes.length
      · have hc : createProcess b aid ty amt = (b, -1) :=
          createProcess_capacity b aid ty amt h1
        rw [hstep, hc]
        simpa using ih b hb
      · have hc : createProcess b aid ty amt =
            ({ b with
                processes := b.processes ++ [⟨b.nextTransactionId, aid, ty, amt, "Pending"⟩],
                nextTransactionId := b.nextTransactionId + 1 },
             b.nextTransactionId) :=
          createProcess_success b aid ty amt (lt_of_not_le h1)
        have hne : ¬ (b.nextTransactionId = -1) := by omega
        rw [hstep, hc]
        simp only [if_neg hne]
        obtain ⟨hpw, hbd⟩ := ih
          { b with
              processes := b.processes ++ [⟨b.nextTransactionId, aid, ty, amt, "Pending"⟩],
              nextTransactionId := b.nextTransactionId + 1 } (by simp; omega)
        have hbd2 : ∀ x ∈ txIdResults
            { b with
                processes := b.processes ++ [⟨b.nextTransactionId, aid, ty, amt, "Pending"⟩],
                nextTransactionId := b.nextTransactionId + 1 } ops,
            b.nextTransactionId + 1 ≤ x := by simpa using hbd
        constructor
        · exact List.pairwise_cons.mpr
            ⟨fun x hx => by have := hbd2 x hx; omega, hpw⟩
        · intro x hx
          rcases List.mem_cons.mp hx with h3 | h3
          · omega
          · have := hbd2 x h3; omega
    | create c i =>
      have hstep : txIdResults b (BankOp.create c i :: ops) =
          txIdResults (createAccount b c i).1 ops := rfl
      have hpres := createAccount_nextTransactionId b c i
      obtain ⟨hpw, hbd⟩ := ih (createAccount b c i).1 (by omega)
      exact ⟨by rw [hstep]; exact hpw, by rw [hstep]; intro x hx; have := hbd x hx; omega⟩
    | exec tid =>
      have hstep : txIdResults b (BankOp.exec tid :: ops) =
          txIdResults (executeProcess b tid) ops := rfl
      have hpres := (executeProcess_counters b tid).2
      obtain ⟨hpw, hbd⟩ := ih (executeProcess b tid) (by omega)
      exact ⟨by rw [hstep]; exact hpw, by rw [hstep]; intro x hx; have := hbd x hx; omega⟩
    | check aid =>
      have hstep : txIdResults b (BankOp.check aid :: ops) = txIdResults b ops := rfl
      obtain ⟨hpw, hbd⟩ := ih b hb
      exact ⟨by rw [hstep]; exact hpw, by rw [hstep]; exact hbd⟩

/-- C5: within one BankSystem instance started fresh, the ids returned by the
successful createAccount calls are pairwise strictly increasing in call
order, and likewise for createProcess and transaction ids; in particular each
kind of id is globally unique for the lifetime of the instance. -/
theorem C5_ids_strictly_increasing (ops : List BankOp) :
    (accountIdResults initBank ops).Pairwise (· < ·) ∧
    (txIdResults initBank ops).Pairwise (· < ·) :=
  ⟨(accountIdResults_mono ops initBank (by norm_num [initBank])).1,
   (txIdResults_mono ops initBank (by norm_num [initBank])).1⟩

/-- C6 is false as stated at one edge: when the account array is already at
capacity, a createAccount call with a negative initial balance fails with the
capacity error, not the invalid-amount error, because the source checks
capacity first. -/
theorem C6_invalid_amount_counterexample :
    (-5 : ℚ) < 0 ∧
    (createAccountStep fullBank "bob" (-5)).2.2 ≠ CreateAcctMsg.negativeInitialBalance := by
  constructor
  · norm_num
  · have h : createAccountStep fullBank "bob" (-5) =
        (fullBank, -1, CreateAcctMsg.maxAccountLimit) :=
      createAccount_capacity fullBank "bob" (-5) (by simp [fullBank])
    rw [h]
    decide

/-- C6 amended: every createAccount call with a negative initial balance
fails with result `-1` and mutates nothing (no account stored, counts and id
counters unchanged, so the next successful creation gets the same id it
would have received anyway); the reported error is InvalidAmount whenever the
registry is below its account capacity (at capacity the capacity error is
reported instead). -/
theorem C6_negative_balance_rejected (b : BankSystem) (c : String) (i : ℚ)
    (hneg : i < 0) :
    (createAccountStep b c i).1 = b ∧
    (createAccountStep b c i).2.1 = -1 ∧
    (b.accounts.length < MAX_ACCOUNTS →
      (createAccountStep b c i).2.2 = CreateAcctMsg.negativeInitialBalance) := by
  by_cases h1 : MAX_ACCOUNTS ≤ b.accounts.length
  · rw [createAccount_capacity b c i h1]
    exact ⟨rfl, rfl, fun h => absurd h (not_lt.mpr h1)⟩
  · rw [createAccount_negative b c i (lt_of_not_le h1) hneg]
    exact ⟨rfl, rfl, fun _ => rfl⟩

theorem C6_negative_balance_rejected_witness :
    (createAccountStep initBank "bob" (-5)).1 = initBank ∧
    (createAccountStep initBank "bob" (-5)).2.1 = -1 ∧
    (createAccountStep initBank "bob" (-5)).2.2 = CreateAcctMsg.negativeInitialBalance := by
  obtain ⟨h1, h2, h3⟩ := C6_negative_balance_rejected initBank "bob" (-5) (by norm_num)
  exact ⟨h1, h2, h3 (by norm_num [initBank, MAX_ACCOUNTS])⟩

/-- C7: createProcess performs no validation of the account id, the type
string or the amount: below capacity it always succeeds, appends the process
with status Pending and the next sequential transaction id, bumps only the
transaction id counter, and returns that id. -/
theorem C7_create_process_no_validation (b : BankSystem) (aid : Int) (ty : String)
    (amt : ℚ) (hcap : b.processes.length < MAX_PROCESSES) :
    createProcess b aid ty amt =
      ({ b with
          processes := b.processes ++ [⟨b.nextTransactionId, aid, ty, amt, "Pending"⟩],
          nextTransactionId := b.nextTransactionId + 1 },
       b.nextTransactionId) :=
  createProcess_success b aid ty amt hcap

theorem C7_create_process_no_validation_witness :
    createProcess initBank (-7) "Garbage" (-3) =
      ({ initBank with
          processes := [⟨1, -7, "Garbage", -3, "Pending"⟩],
          nextTransactionId := 2 },
       1) := by
  have h := C7_create_process_no_validation initBank (-7) "Garbage" (-3)
    (by norm_num [initBank, MAX_PROCESSES])
  simpa [initBank] using h

/-- C8: executing a pending transaction whose account id names no existing
active account sets that transaction's status to Failed, reports the
account-not-found error, and leaves every account untouched. -/
theorem C8_account_not_found (b : BankSystem) (tid : Int) (proc : Process)
    (hp : b.processes.find? (fun p => p.tid == tid) = some proc)
    (hst : proc.status = "Pending")
    (ha : findAccount b proc.aid = none) :
    (executeStep b tid).2 = ExecMsg.accountNotFound ∧
    txStatus (executeProcess b tid) tid = some "Failed" ∧
    (executeProcess b tid).accounts = b.accounts := by
  have he := executeStep_noAccount b tid proc hp ha
  refine ⟨by rw [he], ?_, ?_⟩
  · unfold executeProcess
    rw [he]
    rw [txStatus_of_find _ _ _ (setStatus_find?_self b.processes tid "Failed" proc hp)]
  · unfold executeProcess
    rw [he]

theorem C8_account_not_found_witness :
    (executeStep bankGhost 1).2 = ExecMsg.accountNotFound ∧
    txStatus (executeProcess bankGhost 1) 1 = some "Failed" ∧
    (executeProcess bankGhost 1).accounts = bankGhost.accounts :=
  C8_account_not_found bankGhost 1 ⟨1, 99, "Deposit", 5, "Pending"⟩ (by decide) rfl
    (by decide)

/-- Folding a list of distinct valid Deposit executions of the same amount
over the state adds the amount once per execution, in any order. -/
theorem deposits_fold (l : List Int) : ∀ (b : BankSystem) (aid : Int) (acc : Account)
    (a : ℚ), 0 < a → l.Nodup →
    findAccount b aid = some acc →
    (∀ tid ∈ l, ∃ p, b.processes.find? (fun q => q.tid == tid) = some p ∧
      p.aid = aid ∧ p.type = "Deposit" ∧ p.amount = a) →
    checkBalance (l.foldl executeProcess b) aid = acc.balance + (l.length : ℚ) * a := by
  induction l with
  | nil =>
    intro b aid acc a hpos hnd ha htx
    simp only [List.foldl_nil, List.length_nil]
    rw [checkBalance_of_find b aid acc ha]
    push_cast
    ring
  | cons tid rest ih =>
    intro b aid acc a hpos hnd ha htx
    obtain ⟨p, hp, hpaid, hpty, hpamt⟩ := htx tid (List.mem_cons_self tid rest)
    have ha2 : findAccount b p.aid = some acc := by rw [hpaid]; exact ha
    have hppos : 0 < p.amount := by rw [hpamt]; exact hpos
    obtain ⟨hp1, hb1proc, ha1⟩ := deposit_effect b tid p acc hp hpty hppos ha2
    have ha1b : findAccount (executeProcess b tid) aid =
        some { acc with balance := acc.balance + p.amount } := by
      rw [← hpaid]; exact ha1
    have htx1 : ∀ tid2 ∈ rest, ∃ p2,
        (executeProcess b tid).processes.find? (fun q => q.tid == tid2) = some p2 ∧
        p2.aid = aid ∧ p2.type = "Deposit" ∧ p2.amount = a := by
      intro tid2 h2
      obtain ⟨p2, hp2, h3, h4, h5⟩ := htx tid2 (List.mem_cons_of_mem _ h2)
      have hne : tid2 ≠ tid := by
        intro hcontra
        subst hcontra
        exact (List.nodup_cons.mp hnd).1 h2
      refine ⟨p2, ?_, h3, h4, h5⟩
      rw [hb1proc, setStatus_find?_ne b.processes tid tid2 "Completed" hne]
      exact hp2
    have hrec := ih (executeProcess b tid) aid { acc with balance := acc.balance + p.amount }
      a hpos (List.nodup_cons.mp hnd).2 ha1b htx1
    rw [List.foldl_cons, hrec, hpamt]
    simp only [List.length_cons]
    push_cast
    ring

/-- C9: executing N pending Deposit transactions of the same positive amount
`a` against the same account with balance 0, in any order (the bank mutex
makes each execution atomic, so every interleaving is some sequential order
of the N executions), yields final balance `N * a`: no update is lost. -/
theorem C9_concurrent_deposits (b : BankSystem) (aid : Int) (acc : Account) (a : ℚ)
    (l : List Int)
    (hN : 1 ≤ l.length) (hpos : 0 < a) (hnd : l.Nodup)
    (hacc : findAccount b aid = some acc) (hbal : acc.balance = 0)
    (htx : ∀ tid ∈ l, ∃ p, b.processes.find? (fun q => q.tid == tid) = some p ∧
      p.aid = aid ∧ p.type = "Deposit" ∧ p.amount = a ∧ p.status = "Pending") :
    checkBalance (l.foldl executeProcess b) aid = (l.length : ℚ) * a := by
  have h := deposits_fold l b aid acc a hpos hnd hacc
    (fun tid htid => by
      obtain ⟨p, h1, h2, h3, h4, _⟩ := htx tid htid
      exact ⟨p, h1, h2, h3, h4⟩)
  rw [h, hbal]
  ring

theorem C9_concurrent_deposits_witness :
    checkBalance (List.foldl executeProcess bankD3 [2, 1, 3]) 1 = 15 := by
  have htx : ∀ tid ∈ ([2, 1, 3] : List Int), ∃ p,
      bankD3.processes.find? (fun q => q.tid == tid) = some p ∧
      p.aid = 1 ∧ p.type = "Deposit" ∧ p.amount = 5 ∧ p.status = "Pending" := by
    intro tid htid
    fin_cases htid
    · exact ⟨⟨2, 1, "Deposit", 5, "Pending"⟩, by decide, rfl, rfl, rfl, rfl⟩
    · exact ⟨⟨1, 1, "Deposit", 5, "Pending"⟩, by decide, rfl, rfl, rfl, rfl⟩
    · exact ⟨⟨3, 1, "Deposit", 5, "Pending"⟩, by decide, rfl, rfl, rfl, rfl⟩
  have h := C9_concurrent_deposits bankD3 1 ⟨1, "alice", 0, true⟩ 5 [2, 1, 3]
    (by norm_num) (by norm_num) (by decide) (by decide) rfl htx
  norm_num at h
  exact h

/-- The process table after `executeProcess` is either untouched or a
`setStatus` of the original at the executed tid. -/
theorem executeProcess_processes_shape (b : BankSystem) (tid : Int) :
    (executeProcess b tid).processes = b.processes ∨
    ∃ st, (executeProcess b tid).processes = setStatus b.processes tid st := by
  unfold executeProcess
  rcases executeStep_split b tid with ⟨_, he⟩ | ⟨proc, _, hrest⟩
  · rw [he]; left; rfl
  · rcases hrest with ⟨_, he⟩ | ⟨acc, _, hsub⟩
    · rw [he]; right; exact ⟨"Failed", rfl⟩
    · rcases hsub with ⟨_, _, he⟩ | ⟨_, _, he⟩ | ⟨_, _, he⟩ | ⟨_, _, _, he⟩ | ⟨_, _, he⟩ <;>
        rw [he]
      · exact Or.inr ⟨"Failed", rfl⟩
      · exact Or.inr ⟨"Completed", rfl⟩
      · exact Or.inr ⟨"Failed", rfl⟩
      · exact Or.inr ⟨"Completed", rfl⟩
      · exact Or.inr ⟨"Failed", rfl⟩

/-- The account table after `executeProcess` is either untouched or an
`updateBalance` of the original at the account referenced by the executed
transaction. -/
theorem executeProcess_accounts_shape (b : BankSystem) (tid : Int) (proc : Process)
    (hp : b.processes.find? (fun p => p.tid == tid) = some proc) :
    (executeProcess b tid).accounts = b.accounts ∨
    ∃ nb, (executeProcess b tid).accounts = updateBalance b.accounts proc.aid nb := by
  unfold executeProcess
  rcases executeStep_split b tid with ⟨hn, _⟩ | ⟨proc2, hp2, hrest⟩
  · rw [hn] at hp; cases hp
  · rw [hp2] at hp
    injection hp with hp
    subst hp
    rcases hrest with ⟨_, he⟩ | ⟨acc, _, hsub⟩
    · rw [he]; left; rfl
    · rcases hsub with ⟨_, _, he⟩ | ⟨_, _, he⟩ | ⟨_, _, he⟩ | ⟨_, _, _, he⟩ | ⟨_, _, he⟩ <;>
        rw [he]
      · left; rfl
      · exact Or.inr ⟨acc.balance + proc2.amount, rfl⟩
      · left; rfl
      · exact Or.inr ⟨acc.balance - proc2.amount, rfl⟩
      · left; rfl

/-- C10: one `executeProcess` call changes at most the status of the executed
transaction and the balance of the single (first active) account it
references; the id counters, both table lengths, every other process slot and
every other account slot are unchanged, and when the tid names no stored
transaction the whole state is unchanged. -/
theorem C10_execute_frame (b : BankSystem) (tid : Int) :
    (executeProcess b tid).nextAccountId = b.nextAccountId ∧
    (executeProcess b tid).nextTransactionId = b.nextTransactionId ∧
    (executeProcess b tid).accounts.length = b.accounts.length ∧
    (executeProcess b tid).processes.length = b.processes.length ∧
    (b.processes.find? (fun p => p.tid == tid) = none → executeProcess b tid = b) ∧
    ∀ proc, b.processes.find? (fun p => p.tid == tid) = some proc →
      (∀ j : ℕ, (executeProcess b tid).processes[j]? = b.processes[j]? ∨
        ∃ p st, b.processes[j]? = some p ∧ p.tid = tid ∧
          (executeProcess b tid).processes[j]? = some { p with status := st } ∧
          ∀ i, i < j → ∀ q, b.processes[i]? = some q → q.tid ≠ tid) ∧
      (∀ j : ℕ, (executeProcess b tid).accounts[j]? = b.accounts[j]? ∨
        ∃ x nb, b.accounts[j]? = some x ∧ x.active = true ∧ x.id = proc.aid ∧
          (executeProcess b tid).accounts[j]? = some { x with balance := nb } ∧
          ∀ i, i < j → ∀ y, b.accounts[i]? = some y →
            ¬(y.active = true ∧ y.id = proc.aid)) := by
  obtain ⟨hna, hnt⟩ := executeProcess_counters b tid
  obtain ⟨hla, hlp⟩ := executeProcess_lengths b tid
  refine ⟨hna, hnt, hla, hlp, ?_, ?_⟩
  · intro hnone
    unfold executeProcess
    rw [executeStep_notFound b tid hnone]
  · intro proc hsome
    constructor
    · intro j
      rcases executeProcess_processes_shape b tid with h | ⟨st, h⟩
      · left; rw [h]
      · rw [h]
        rcases setStatus_getElem? b.processes tid st j with h2 | ⟨p, h1, h2, h3, h4⟩
        · left; exact h2
        · right; exact ⟨p, st, h1, h2, h3, h4⟩
    · intro j
      rcases executeProcess_accounts_shape b tid proc hsome with h | ⟨nb, h⟩
      · left; rw [h]
      · rw [h]
        rcases updateBalance_getElem? b.accounts proc.aid nb j with h2 | ⟨x, h1, h2, h3, h4, h5⟩
        · left; exact h2
        · right; exact ⟨x, nb, h1, h2, h3, h4, h5⟩

theorem C10_execute_frame_witness :
    (executeProcess bankAW 1).nextAccountId = bankAW.nextAccountId ∧
    ((executeProcess bankAW 1).processes[0]? = bankAW.processes[0]? ∨
      ∃ p st, bankAW.processes[0]? = some p ∧ p.tid = 1 ∧
        (executeProcess bankAW 1).processes[0]? = some { p with status := st } ∧
        ∀ i, i < 0 → ∀ q, bankAW.processes[i]? = some q → q.tid ≠ 1) :=
  ⟨(C10_execute_frame bankAW 1).1,
   ((C10_execute_frame bankAW 1).2.2.2.2.2 ⟨1, 1, "Withdraw", 30, "Pending"⟩
     (by decide)).1 0⟩
